import Mathlib

/-!
Verification of the `newline-per-chained-call` ESLint rule
(src/lib/rules/newline-per-chained-call.js) against its natural-language
specification.

The rule receives one visited `MemberExpression` node per invocation
(visitor `MemberExpression:exit`), walks outward/inward through the
call/member spine collecting "links", and reports links according to the
configured `depthCalculationStyle`.

Shallow embedding conventions:
* AST nodes are an inductive type carrying only the fields the rule reads
  (`object`, `property`, `computed`, `callee`, location info).  Call
  arguments are never read by the rule and are omitted.
* JavaScript parent pointers are modelled by passing the list of ancestor
  nodes (innermost first) alongside the current node; the loop in
  `validateChainDepth` only ever moves from a node to one of its direct
  children, so pushing the previous node keeps the head of that list equal
  to `currentNode.parent`.
* Host-engine accessors (`sourceCode.getText`, token stream) are modelled
  by a `SourceModel` value supplied by the host.
-/

namespace NewlinePerChainedCall

/-- Source location of a node: the line of its first and last token and its
character offsets (ESLint `loc` plus `range`). -/
structure Loc where
  startLine : Nat
  endLine : Nat
  startOfs : Nat
  endOfs : Nat
deriving DecidableEq, Repr

/-- The expression-tree nodes the rule inspects.  `other` stands for any
node kind the rule never matches on (literals, binary expressions used as
computed keys, ...); its stored string is its source text. -/
inductive Node where
  | identifier (name : String) (loc : Loc)
  | other (text : String) (loc : Loc)
  | callExpression (callee : Node) (loc : Loc)
  | memberExpression (object : Node) (property : Node) (computed : Bool) (loc : Loc)
  | expressionStatement (expression : Node) (loc : Loc)
  | variableDeclarator (initExpr : Node) (loc : Loc)
deriving DecidableEq, Repr

/-- The ESTree `type` tag of a node, as the JavaScript string the rule
compares against. -/
def nodeType : Node → String
  | .identifier _ _ => "Identifier"
  | .other _ _ => "Other"
  | .callExpression _ _ => "CallExpression"
  | .memberExpression _ _ _ _ => "MemberExpression"
  | .expressionStatement _ _ => "ExpressionStatement"
  | .variableDeclarator _ _ => "VariableDeclarator"

/-- The location data of a node. -/
def locOf : Node → Loc
  | .identifier _ l => l
  | .other _ l => l
  | .callExpression _ l => l
  | .memberExpression _ _ _ l => l
  | .expressionStatement _ l => l
  | .variableDeclarator _ l => l

/-- A lexical token of the analyzed file (start offset, text, and whether
it is a punctuator), as exposed by the host token stream. -/
structure Token where
  startOfs : Nat
  value : String
  isPunctuator : Bool
deriving DecidableEq, Repr

/-- A text edit produced by the fixer: insert `text` at offset `pos`
(`fixer.insertTextBefore(token, text)` inserts at the token's start). -/
structure Edit where
  pos : Nat
  text : String
deriving DecidableEq, Repr

/-- The host-engine source accessors the rule uses: the ordered token list
of the file and `sourceCode.getText` restricted to the sub-nodes the rule
passes to it. -/
structure SourceModel where
  tokens : List Token
  getText : Node → String

/-- `ast-utils.isClosingParenToken`: a punctuator token whose text is `)`. -/
def isClosingParenToken (t : Token) : Bool :=
  t.value == ")" && t.isPunctuator

/-- `sourceCode.getTokenAfter(node, pred)`: the first token of the (sorted)
token list starting at or after the end of `node` that satisfies `pred`. -/
def getTokenAfter (tokens : List Token) (n : Node) (pred : Token → Bool) : Option Token :=
  tokens.find? (fun t => decide ((locOf n).endOfs ≤ t.startOfs) && pred t)

/-- The two values of the `depthCalculationStyle` option. -/
inductive DepthStyle where
  | all
  | perLine
deriving DecidableEq, Repr

/-- The options object as supplied by the user (after schema validation):
each field may be absent. -/
structure RawOptions where
  depthCalculationStyle : Option DepthStyle := none
  ignoreChainWithDepth : Option Nat := none
  includeBrackets : Option Bool := none
  includeMethodCalls : Option Bool := none
  includeProperties : Option Bool := none
deriving DecidableEq, Repr

/-- The fully defaulted options the rule body works with. -/
structure ResolvedOptions where
  depthCalculationStyle : DepthStyle
  ignoreChainWithDepth : Nat
  includeBrackets : Bool
  includeMethodCalls : Bool
  includeProperties : Bool
deriving DecidableEq, Repr

/-- Option resolution from the head of `create` (source lines 63-80):
`depthCalculationStyle` and `ignoreChainWithDepth` are defaulted with the
JavaScript `||` operator (so an explicit `0` is falsy and falls back to
`2`), while the three boolean options use `typeof x !== "undefined"`
presence checks. -/
def resolveOptions (o : RawOptions) : ResolvedOptions :=
  { depthCalculationStyle := o.depthCalculationStyle.getD .perLine
    ignoreChainWithDepth :=
      match o.ignoreChainWithDepth with
      | some n => if n = 0 then 2 else n
      | none => 2
    includeBrackets := o.includeBrackets.getD true
    includeMethodCalls := o.includeMethodCalls.getD true
    includeProperties := o.includeProperties.getD false }

/-- One entry of the `memberExpressions` array built by
`validateChainDepth`: either a genuine `MemberExpression` node, or the
object-literal `{ object: currentNode.parent, property: currentNode }`
pushed for a non-member current node (source lines 176-179). -/
inductive Link where
  | member (node : Node)
  | synthesized (object : Node) (property : Node)
deriving DecidableEq, Repr

/-- The `object` position of a link.  `Link.member` entries always hold
`memberExpression` nodes; the fallback arm is never reached. -/
def linkObject : Link → Node
  | .member (.memberExpression o _ _ _) => o
  | .member n => n
  | .synthesized o _ => o

/-- The `property` position of a link. -/
def linkProperty : Link → Node
  | .member (.memberExpression _ p _ _) => p
  | .member n => n
  | .synthesized _ p => p

/-- The `computed` flag of a link; a synthesized record has no `computed`
field, which JavaScript reads as falsy. -/
def linkComputed : Link → Bool
  | .member (.memberExpression _ _ c _) => c
  | _ => false

/-- Models the filter `({ type }) => type` (source line 200): genuine
nodes have a truthy `type` string, synthesized records have none. -/
def linkHasType : Link → Bool
  | .member _ => true
  | .synthesized _ _ => false

/-- `hasObjectAndPropertyOnSameLine` (source lines 114-121), which is
`ast-utils.isTokenOnSameLine(object, property)`: the last line of the
object equals the first line of the property. -/
def hasObjectAndPropertyOnSameLine (l : Link) : Bool :=
  (locOf (linkObject l)).endLine == (locOf (linkProperty l)).startLine

/-- The same test applied directly to a visited `MemberExpression` node
(the `perLine` branch destructures the node itself). -/
def memberSameLine : Node → Bool
  | .memberExpression o p _ _ => (locOf o).endLine == (locOf p).startLine
  | _ => false

/-- Characters matched by `ast-utils.LINEBREAK_MATCHER`. -/
def isLinebreakChar (c : Char) : Bool :=
  c = '\n' || c = '\r' || c = Char.ofNat 0x2028 || c = Char.ofNat 0x2029

/-- `getPropertyText` (source lines 101-107): `[` or `.`, then the first
line of the property source text, then `]` when the bracket text is a
single line. -/
def getPropertyText (src : SourceModel) (l : Link) : String :=
  let pfx := if linkComputed l then "[" else "."
  let txt := src.getText (linkProperty l)
  let firstLine := String.mk (txt.data.takeWhile (fun c => !isLinebreakChar c))
  let sfx := if linkComputed l && txt.data.all (fun c => !isLinebreakChar c) then "]" else ""
  pfx ++ firstLine ++ sfx

/-- One diagnostic produced by `context.report`: the reported property
node (whose `loc.start` is the diagnostic location), the rendered
property text, and the fix (absent when the token query finds nothing). -/
structure Violation where
  propNode : Node
  propertyName : String
  fix : Option Edit
deriving DecidableEq, Repr

/-- The report built for a link by both branches of `validateChainDepth`
(source lines 202-220 and 227-244): report the property, and insert a
single newline before the first non-closing-paren token after the object. -/
def reportLink (src : SourceModel) (l : Link) : Violation :=
  { propNode := linkProperty l
    propertyName := getPropertyText src l
    fix := (getTokenAfter src.tokens (linkObject l) (fun t => !isClosingParenToken t)).map
      (fun t => { pos := t.startOfs, text := "\n" }) }

/-- The `type` tag of `currentNode.parent`; the empty string models an
absent parent (never the tag of any node). -/
def parentTypeOf (parents : List Node) : String :=
  match parents with
  | p :: _ => nodeType p
  | [] => ""

/-- The link-counting condition of the walk (source lines 154-164). -/
def isCountableLinkPosition (opts : ResolvedOptions) (parents : List Node) : Bool :=
  (opts.includeMethodCalls && parentTypeOf parents == "CallExpression") ||
  (opts.includeProperties &&
    (parentTypeOf parents == "MemberExpression" ||
     parentTypeOf parents == "ExpressionStatement" ||
     parentTypeOf parents == "VariableDeclarator"))

/-- `isFinalMemberExpression` (source lines 128-139): the parent, after
unwrapping one enclosing `CallExpression`, is an `ExpressionStatement` or
`VariableDeclarator`. -/
def isFinalMemberExpression (parents : List Node) : Bool :=
  match parents with
  | p :: rest =>
    match (if nodeType p == "CallExpression" then rest.head? else some p) with
    | some q => nodeType q == "ExpressionStatement" || nodeType q == "VariableDeclarator"
    | none => false
  | [] => false

/-- The `while (currentNode)` loop of `validateChainDepth` (source lines
147-191), collecting the `memberExpressions` array.  `startIsFinal` is
`isFinalMemberExpression(node)` for the originally visited node.  A node
without an `object` field ends the loop (JavaScript `currentNode.object`
is `undefined`), so all non-member arms that would descend return their
collected links directly. -/
def collectChain (opts : ResolvedOptions) (startIsFinal : Bool) : Node → List Node → List Link
  | cur@(.callExpression callee _), parents =>
    collectChain opts startIsFinal callee (cur :: parents)
  | cur@(.memberExpression obj prop c _), parents =>
    if isCountableLinkPosition opts parents then
      (if opts.includeBrackets || (nodeType prop == "Identifier" && !c) then
        [Link.member cur]
      else []) ++ collectChain opts startIsFinal obj (cur :: parents)
    else if opts.depthCalculationStyle == .all && startIsFinal then
      collectChain opts startIsFinal obj (cur :: parents)
    else
      []
  | cur, parents =>
    if isCountableLinkPosition opts parents then
      match parents with
      | p :: _ => [Link.synthesized p cur]
      | [] => []
    else
      []

/-- `validateChainDepth` (source lines 146-246): build the chain, then
either report every same-line genuine member link (style `all`, at a
statement-final node, when the chain is over depth and some link is
same-line) or report the visited node alone (style `perLine`, when the
chain is over depth and the visited node is same-line). -/
def validateChainDepth (opts : ResolvedOptions) (src : SourceModel)
    (node : Node) (parents : List Node) : List Violation :=
  let memberExpressions := collectChain opts (isFinalMemberExpression parents) node parents
  if opts.depthCalculationStyle = .all ∧
      isFinalMemberExpression parents = true ∧
      memberExpressions.length > opts.ignoreChainWithDepth ∧
      memberExpressions.any hasObjectAndPropertyOnSameLine = true then
    ((memberExpressions.filter linkHasType).filter hasObjectAndPropertyOnSameLine).map
      (reportLink src)
  else if opts.depthCalculationStyle = .perLine ∧
      memberExpressions.length > opts.ignoreChainWithDepth ∧
      memberSameLine node = true then
    [reportLink src (Link.member node)]
  else
    []

/-- The spec's description of the fix target, written from its words: the
first token following the object expression that is not a
closing-parenthesis token. -/
def firstNonClosingParenTokenAfter (tokens : List Token) (objectNode : Node) : Option Token :=
  tokens.find?
    (fun t => decide ((locOf objectNode).endOfs ≤ t.startOfs) &&
      !(t.value == ")" && t.isPunctuator))

/-- Models the host engine's tree walk: the rule's only visitor is
`MemberExpression:exit`, so `validateChainDepth` runs at every
`MemberExpression` node after its children have been traversed. -/
def walkNode (opts : ResolvedOptions) (src : SourceModel) : Node → List Node → List Violation
  | _n@(.identifier _ _), _ => []
  | _n@(.other _ _), _ => []
  | n@(.callExpression callee _), ps =>
    walkNode opts src callee (n :: ps)
  | n@(.memberExpression obj prop _ _), ps =>
    walkNode opts src obj (n :: ps) ++ walkNode opts src prop (n :: ps) ++
      validateChainDepth opts src n ps
  | n@(.expressionStatement e _), ps =>
    walkNode opts src e (n :: ps)
  | n@(.variableDeclarator e _), ps =>
    walkNode opts src e (n :: ps)

end NewlinePerChainedCall

namespace NewlinePerChainedCall

/-! ### Concrete material used by the theorems

A one-line location, a minimal source model, generic one-line method
chains `base.m1().m2()...mn();`, and the small programs the individual
claims are settled on. -/

/-- A location entirely on line 1 with no offset information. -/
def oneLineLoc : Loc := { startLine := 1, endLine := 1, startOfs := 0, endOfs := 0 }

/-- A minimal source model: empty token stream, and source text recovered
from the stored name/text of leaf nodes. -/
def src0 : SourceModel :=
  { tokens := []
    getText := fun n =>
      match n with
      | .identifier s _ => s
      | .other s _ => s
      | _ => "" }

/-- Name of the k-th method of the generic chain. -/
def linkLabel (k : Nat) : String := "m" ++ toString k

/-- The generic one-line chain expression: `chainExpr 0` is the base
identifier, `chainExpr (k+1)` is `chainExpr k  .m(k+1)  ()`. -/
def chainExpr : Nat → Node
  | 0 => .identifier "base" oneLineLoc
  | k+1 => .callExpression
      (.memberExpression (chainExpr k) (.identifier (linkLabel (k+1)) oneLineLoc) false oneLineLoc)
      oneLineLoc

/-- The member expression at position `k+1` of the generic chain (the one
whose extracted chain has length `k+1`). -/
def chainMember (k : Nat) : Node :=
  .memberExpression (chainExpr k) (.identifier (linkLabel (k+1)) oneLineLoc) false oneLineLoc

/-- The generic chain as a full expression statement. -/
def chainStmt (n : Nat) : Node := .expressionStatement (chainExpr n) oneLineLoc

/-- The `memberExpressions` array extracted from `chainMember (k-1)` under
method-call counting: the `k` member links, outermost first. -/
def chainLinks : Nat → List Link
  | 0 => []
  | k+1 => Link.member (chainMember k) :: chainLinks k

/-- `perLine` options with threshold `d` and otherwise default flags. -/
def pOpts (d : Nat) : ResolvedOptions :=
  { depthCalculationStyle := .perLine, ignoreChainWithDepth := d,
    includeBrackets := true, includeMethodCalls := true, includeProperties := false }

/-- `all` options with threshold `d` and otherwise default flags. -/
def aOpts (d : Nat) : ResolvedOptions :=
  { depthCalculationStyle := .all, ignoreChainWithDepth := d,
    includeBrackets := true, includeMethodCalls := true, includeProperties := false }

/-- `all` options with `includeProperties` also enabled. -/
def allPropsOpts (d : Nat) : ResolvedOptions :=
  { depthCalculationStyle := .all, ignoreChainWithDepth := d,
    includeBrackets := true, includeMethodCalls := true, includeProperties := true }

/-- `all` options with `includeBrackets` disabled. -/
def noBracketsAllOpts (d : Nat) : ResolvedOptions :=
  { depthCalculationStyle := .all, ignoreChainWithDepth := d,
    includeBrackets := false, includeMethodCalls := true, includeProperties := false }

/-- The violations the `perLine` walk of the generic chain of length `n`
is expected to produce (visit order is innermost link first). -/
def expectedChainViolations (d : Nat) : Nat → List Violation
  | 0 => []
  | k+1 => expectedChainViolations d k ++
      (if k+1 > d then [reportLink src0 (Link.member (chainMember k))] else [])

def aId : Node := .identifier "a" oneLineLoc
def bId : Node := .identifier "b" oneLineLoc
def cId : Node := .identifier "c" oneLineLoc
def xId : Node := .identifier "x" oneLineLoc
def yId : Node := .identifier "y" oneLineLoc

/-- `a.b` of the one-line program `a.b();` (also the head of `a.b().c();`
and `a.b()[x]();`). -/
def abMember : Node := .memberExpression aId bId false oneLineLoc
def abCall : Node := .callExpression abMember oneLineLoc
def abStmt : Node := .expressionStatement abCall oneLineLoc
def abParents : List Node := [abCall, abStmt]

/-- `a.b().c` of the one-line program `a.b().c();`. -/
def abcMember : Node := .memberExpression abCall cId false oneLineLoc
def abcCall : Node := .callExpression abcMember oneLineLoc
def abcStmt : Node := .expressionStatement abcCall oneLineLoc
def abcParents : List Node := [abcCall, abcStmt]
def abcInnerParents : List Node := [abCall, abcMember, abcCall, abcStmt]

/-- `a.b()[x]` of the one-line program `a.b()[x]();` — a computed access
whose key is the plain identifier `x`. -/
def abxMember : Node := .memberExpression abCall xId true oneLineLoc
def abxCall : Node := .callExpression abxMember oneLineLoc
def abxStmt : Node := .expressionStatement abxCall oneLineLoc
def abxParents : List Node := [abxCall, abxStmt]

/-- `a[x]` and `a[x]()[y]` of the fully bracketed one-line program
`a[x]()[y]();`. -/
def axMember : Node := .memberExpression aId xId true oneLineLoc
def axCall : Node := .callExpression axMember oneLineLoc
def axyMember : Node := .memberExpression axCall yId true oneLineLoc
def axyCall : Node := .callExpression axyMember oneLineLoc
def axyStmt : Node := .expressionStatement axyCall oneLineLoc
def axyParents : List Node := [axyCall, axyStmt]

/-- Nodes and tokens of the one-line program `(u).f().g();`, with real
character offsets, used to exercise the fixer's closing-paren skipping:
tokens `( u ) . f ( ) . g ( )` at offsets 0..10. -/
def uId : Node := .identifier "u" ⟨1,1,1,2⟩
def fId : Node := .identifier "f" ⟨1,1,4,5⟩
def ufMember : Node := .memberExpression uId fId false ⟨1,1,0,5⟩
def ufCall : Node := .callExpression ufMember ⟨1,1,0,7⟩
def gId : Node := .identifier "g" ⟨1,1,8,9⟩
def ufgMember : Node := .memberExpression ufCall gId false ⟨1,1,0,9⟩
def ufgCall : Node := .callExpression ufgMember ⟨1,1,0,11⟩
def ufgStmt : Node := .expressionStatement ufgCall ⟨1,1,0,11⟩
def ufgTokens : List Token :=
  [⟨0,"(",true⟩, ⟨1,"u",false⟩, ⟨2,")",true⟩, ⟨3,".",true⟩, ⟨4,"f",false⟩,
   ⟨5,"(",true⟩, ⟨6,")",true⟩, ⟨7,".",true⟩, ⟨8,"g",false⟩, ⟨9,"(",true⟩, ⟨10,")",true⟩]
def ufgSrc : SourceModel := { tokens := ufgTokens, getText := src0.getText }
def ufParents : List Node := [ufCall, ufgMember, ufgCall, ufgStmt]

end NewlinePerChainedCall

namespace NewlinePerChainedCall

/-! ### Helper lemmas about the generic one-line chain -/

theorem locOf_chainExpr (k : Nat) : locOf (chainExpr k) = oneLineLoc := by
  cases k <;> rfl

theorem chainExpr_succ (k : Nat) :
    chainExpr (k+1) = .callExpression (chainMember k) oneLineLoc := rfl

theorem nodeType_chainMember (k : Nat) : nodeType (chainMember k) = "MemberExpression" := rfl

theorem chainLinks_length (k : Nat) : (chainLinks k).length = k := by
  induction k with
  | zero => rfl
  | succ k ih => simp [chainLinks, ih]

theorem memberSameLine_chainMember (k : Nat) : memberSameLine (chainMember k) = true := by
  show ((locOf (chainExpr k)).endLine ==
    (locOf (.identifier (linkLabel (k+1)) oneLineLoc)).startLine) = true
  rw [locOf_chainExpr]
  rfl

/-- Extracting from the chain body below a member link yields the `k`
member links of the generic chain, whatever the style and final flag. -/
theorem collectChain_spine (opts : ResolvedOptions)
    (hm : opts.includeMethodCalls = true) (hp : opts.includeProperties = false)
    (hb : opts.includeBrackets = true) (aF : Bool) :
    ∀ (k : Nat) (m : Node) (ps : List Node), nodeType m = "MemberExpression" →
      collectChain opts aF (chainExpr k) (m :: ps) = chainLinks k := by
  intro k
  induction k with
  | zero =>
    intro m ps hmem
    simp [chainExpr, collectChain, chainLinks, isCountableLinkPosition, parentTypeOf, hmem, hp, hm]
  | succ k ih =>
    intro m ps hmem
    rw [chainExpr_succ]
    simp [collectChain, chainMember, isCountableLinkPosition, parentTypeOf, nodeType, hm, hb,
      chainLinks, ih]

/-- Extracting at a member link of the generic chain (its parent in the
tree is the enclosing call). -/
theorem collectChain_at_chainMember (opts : ResolvedOptions)
    (hm : opts.includeMethodCalls = true) (hp : opts.includeProperties = false)
    (hb : opts.includeBrackets = true) (aF : Bool) (k : Nat) (c : Node) (ps : List Node)
    (hc : nodeType c = "CallExpression") :
    collectChain opts aF (chainMember k) (c :: ps) = chainLinks (k+1) := by
  simp [collectChain, chainMember, isCountableLinkPosition, parentTypeOf, hc, hm, hb, chainLinks]
  exact collectChain_spine opts hm hp hb aF k _ _ rfl

end NewlinePerChainedCall

namespace NewlinePerChainedCall

/-- A `perLine` invocation is the second branch of `validateChainDepth`:
one violation for the visited link exactly when the chain is over depth
and the visited node's object and property share a line. -/
theorem perLine_invocation (opts : ResolvedOptions) (src : SourceModel) (node : Node)
    (ps : List Node) (h : opts.depthCalculationStyle = .perLine) :
    validateChainDepth opts src node ps =
      if ((collectChain opts (isFinalMemberExpression ps) node ps).length >
            opts.ignoreChainWithDepth ∧ memberSameLine node = true)
      then [reportLink src (Link.member node)] else [] := by
  simp [validateChainDepth, h]

/-- An `all` invocation away from a statement-final node reports nothing. -/
theorem all_invocation_nonfinal (opts : ResolvedOptions) (src : SourceModel) (node : Node)
    (ps : List Node) (h : opts.depthCalculationStyle = .all)
    (hf : isFinalMemberExpression ps = false) :
    validateChainDepth opts src node ps = [] := by
  simp [validateChainDepth, h, hf]

/-- An `all` invocation at a statement-final node reports the same-line
genuine member links when the gate passes. -/
theorem all_invocation_final (opts : ResolvedOptions) (src : SourceModel) (node : Node)
    (ps : List Node) (h : opts.depthCalculationStyle = .all)
    (hf : isFinalMemberExpression ps = true) :
    validateChainDepth opts src node ps =
      if ((collectChain opts true node ps).length > opts.ignoreChainWithDepth ∧
          (collectChain opts true node ps).any hasObjectAndPropertyOnSameLine = true)
      then (((collectChain opts true node ps).filter linkHasType).filter
              hasObjectAndPropertyOnSameLine).map (reportLink src)
      else [] := by
  simp [validateChainDepth, h, hf]

/-- The `perLine` invocation at link `k+1` of the generic one-line chain. -/
theorem validate_chainMember_perLine (d k : Nat) (c : Node) (ps : List Node)
    (hc : nodeType c = "CallExpression") :
    validateChainDepth (pOpts d) src0 (chainMember k) (c :: ps) =
      if k+1 > d then [reportLink src0 (Link.member (chainMember k))] else [] := by
  rw [perLine_invocation (pOpts d) src0 (chainMember k) (c :: ps) rfl]
  rw [collectChain_at_chainMember (pOpts d) rfl rfl rfl _ k c ps hc]
  simp [chainLinks_length, memberSameLine_chainMember, pOpts]

/-- A walk step at a call node: the host traversal descends into the
callee with the call pushed as its parent. -/
theorem walkNode_call (opts : ResolvedOptions) (src : SourceModel) (callee : Node)
    (loc : Loc) (ps : List Node) :
    walkNode opts src (.callExpression callee loc) ps =
      walkNode opts src callee (.callExpression callee loc :: ps) := by
  simp [walkNode]

/-- A walk step at a member link of the generic chain: traverse the chain
body, then run the rule at the link (the property identifier contributes
nothing). -/
theorem walkNode_chainMember (opts : ResolvedOptions) (src : SourceModel) (k : Nat)
    (ps : List Node) :
    walkNode opts src (chainMember k) ps =
      walkNode opts src (chainExpr k) (chainMember k :: ps) ++
        validateChainDepth opts src (chainMember k) ps := by
  simp [chainMember, walkNode]

/-- The `perLine` walk of the generic chain body reports every over-depth
link, innermost first. -/
theorem walkNode_chainExpr_perLine (d : Nat) :
    ∀ (k : Nat) (ps : List Node),
      walkNode (pOpts d) src0 (chainExpr k) ps = expectedChainViolations d k := by
  intro k
  induction k with
  | zero => intro ps; rfl
  | succ k ih =>
    intro ps
    rw [chainExpr_succ, walkNode_call]
    rw [walkNode_chainMember, ih,
      validate_chainMember_perLine d k (.callExpression (chainMember k) oneLineLoc) ps rfl]
    simp [expectedChainViolations]

/-- Closed form of the expected `perLine` walk output: one violation per
chain position beyond the threshold. -/
theorem expectedChainViolations_eq_range (d : Nat) :
    ∀ n, expectedChainViolations d n =
      (List.range (n - d)).map (fun i => reportLink src0 (Link.member (chainMember (d + i)))) := by
  intro n
  induction n with
  | zero => simp [expectedChainViolations]
  | succ n ih =>
    by_cases h : d ≤ n
    · have hgt : n + 1 > d := by omega
      have h1 : n + 1 - d = (n - d) + 1 := by omega
      have h2 : d + (n - d) = n := by omega
      simp [expectedChainViolations, ih, hgt, h1, h2, List.range_succ]
    · have hle : ¬ (n + 1 > d) := by omega
      have h1 : n + 1 - d = 0 := by omega
      have h2 : n - d = 0 := by omega
      simp [expectedChainViolations, ih, hle, h1, h2]

end NewlinePerChainedCall

namespace NewlinePerChainedCall

/-- A node whose parent is a call that is itself nested inside a
non-statement context is not statement-final. -/
theorem isFinal_call_cons (c : Node) (ps : List Node)
    (hc : nodeType c = "CallExpression")
    (h1 : parentTypeOf ps ≠ "ExpressionStatement")
    (h2 : parentTypeOf ps ≠ "VariableDeclarator") :
    isFinalMemberExpression (c :: ps) = false := by
  cases ps with
  | nil => simp [isFinalMemberExpression, hc]
  | cons p rest =>
    have h1' : nodeType p ≠ "ExpressionStatement" := h1
    have h2' : nodeType p ≠ "VariableDeclarator" := h2
    simp [isFinalMemberExpression, hc, h1', h2']

/-- The `all`-style walk of the generic chain body reports nothing when
the surrounding context is not a statement boundary: every inner member
fails the termination test. -/
theorem walkNode_chainExpr_all_inner (d : Nat) :
    ∀ (k : Nat) (ps : List Node),
      parentTypeOf ps ≠ "ExpressionStatement" → parentTypeOf ps ≠ "VariableDeclarator" →
      walkNode (aOpts d) src0 (chainExpr k) ps = [] := by
  intro k
  induction k with
  | zero => intro ps _ _; rfl
  | succ k ih =>
    intro ps h1 h2
    rw [chainExpr_succ, walkNode_call, walkNode_chainMember]
    rw [ih (chainMember k :: .callExpression (chainMember k) oneLineLoc :: ps)
      (by simp [parentTypeOf, nodeType_chainMember]) (by simp [parentTypeOf, nodeType_chainMember])]
    rw [all_invocation_nonfinal (aOpts d) src0 (chainMember k) _ rfl
      (isFinal_call_cons (.callExpression (chainMember k) oneLineLoc) ps rfl h1 h2)]
    rfl

/-- Countability does not depend on the threshold. -/
theorem isCountable_depth_irrelevant (opts : ResolvedOptions) (x : Nat) (ps : List Node) :
    isCountableLinkPosition { opts with ignoreChainWithDepth := x } ps =
      isCountableLinkPosition opts ps := rfl

/-- `collectChain` never reads `ignoreChainWithDepth`: changing the
threshold leaves the extracted chain unchanged. -/
theorem collectChain_depth_irrelevant (opts : ResolvedOptions) (x : Nat) (aF : Bool) :
    ∀ (n : Node) (ps : List Node),
      collectChain { opts with ignoreChainWithDepth := x } aF n ps =
        collectChain opts aF n ps := by
  intro n
  induction n with
  | identifier s l => intro ps; rfl
  | other s l => intro ps; rfl
  | expressionStatement e l ih => intro ps; rfl
  | variableDeclarator e l ih => intro ps; rfl
  | callExpression callee l ih =>
    intro ps
    simp only [collectChain]
    exact ih _
  | memberExpression o p c l iho ihp =>
    intro ps
    simp only [collectChain, iho, isCountable_depth_irrelevant]

/-- The spec's description of the fix target coincides with the code's
token query. -/
theorem firstNonClosingParen_eq_getTokenAfter (tokens : List Token) (n : Node) :
    firstNonClosingParenTokenAfter tokens n =
      getTokenAfter tokens n (fun t => !isClosingParenToken t) := rfl

end NewlinePerChainedCall

namespace NewlinePerChainedCall

/-- Claim C1: under depthCalculationStyle `perLine`, each invocation of the
evaluator on a visited MemberExpression produces a violation iff the chain
extracted from that node is strictly longer than `ignoreChainWithDepth`
and the visited node's object and property are on the same source line,
and then produces exactly the one violation for the visited link;
consequently the whole tree walk of a statement-level one-line chain of
length `n` with threshold `d` yields zero violations when `n ≤ d` and,
when `n > d`, exactly the links at positions `d+1 .. n` (all of which are
same-line with their objects). -/
theorem claim_C1_perLine_invocations_and_walk :
    (∀ (opts : ResolvedOptions) (src : SourceModel) (node : Node) (ps : List Node),
        opts.depthCalculationStyle = .perLine →
        validateChainDepth opts src node ps =
          if ((collectChain opts (isFinalMemberExpression ps) node ps).length >
                opts.ignoreChainWithDepth ∧ memberSameLine node = true)
          then [reportLink src (Link.member node)] else []) ∧
    (∀ (n d : Nat),
        walkNode (pOpts d) src0 (chainStmt n) [] =
          (List.range (n - d)).map
            (fun i => reportLink src0 (Link.member (chainMember (d + i))))) := by
  constructor
  · exact perLine_invocation
  · intro n d
    have hw : walkNode (pOpts d) src0 (chainStmt n) [] =
        walkNode (pOpts d) src0 (chainExpr n) [chainStmt n] := by
      simp [chainStmt, walkNode]
    rw [hw, walkNode_chainExpr_perLine, expectedChainViolations_eq_range]

/-- Witness for claim C1: the third link of the one-line chain
`a.b().c();` with threshold 1 under `perLine` is reported exactly once. -/
theorem claim_C1_witness :
    validateChainDepth (pOpts 1) src0 abcMember abcParents =
      [reportLink src0 (Link.member abcMember)] := by
  rw [claim_C1_perLine_invocations_and_walk.1 (pOpts 1) src0 abcMember abcParents rfl]
  decide

/-- Claim C3: under depthCalculationStyle `all`, an invocation produces
violations only when the visited node is statement-final (its parent,
after unwrapping one enclosing CallExpression, is an ExpressionStatement
or a VariableDeclarator); invocations at inner nodes produce nothing, so
the whole walk of the generic statement-level chain equals the single
invocation at its outermost member. -/
theorem claim_C3_all_single_evaluation :
    (∀ (opts : ResolvedOptions) (src : SourceModel) (node : Node) (ps : List Node),
        opts.depthCalculationStyle = .all →
        isFinalMemberExpression ps = false →
        validateChainDepth opts src node ps = []) ∧
    (∀ (n d : Nat),
        walkNode (aOpts d) src0 (chainStmt (n+1)) [] =
          validateChainDepth (aOpts d) src0 (chainMember n)
            [chainExpr (n+1), chainStmt (n+1)]) := by
  constructor
  · exact all_invocation_nonfinal
  · intro n d
    have hw : walkNode (aOpts d) src0 (chainStmt (n+1)) [] =
        walkNode (aOpts d) src0 (chainExpr (n+1)) [chainStmt (n+1)] := by
      simp [chainStmt, walkNode]
    rw [hw, chainExpr_succ, walkNode_call, walkNode_chainMember]
    rw [walkNode_chainExpr_all_inner d n _
      (by simp [parentTypeOf, nodeType_chainMember])
      (by simp [parentTypeOf, nodeType_chainMember])]
    rfl

/-- Witness for claim C3: under `all`, the invocation at the inner member
`a.b` of `a.b().c();` reports nothing. -/
theorem claim_C3_witness :
    validateChainDepth (aOpts 1) src0 abMember abcInnerParents = [] :=
  claim_C3_all_single_evaluation.1 (aOpts 1) src0 abMember abcInnerParents rfl (by decide)

/-- Claim C7: for both depth-calculation styles the depth comparison is
strict, so a chain whose length is at most the threshold — in particular
exactly the threshold — never yields a violation. -/
theorem claim_C7_strict_threshold :
    (∀ (opts : ResolvedOptions) (src : SourceModel) (node : Node) (ps : List Node),
        (collectChain opts (isFinalMemberExpression ps) node ps).length ≤
          opts.ignoreChainWithDepth →
        validateChainDepth opts src node ps = []) ∧
    (∀ (opts : ResolvedOptions) (src : SourceModel) (node : Node) (ps : List Node),
        (collectChain opts (isFinalMemberExpression ps) node ps).length =
          opts.ignoreChainWithDepth →
        validateChainDepth opts src node ps = []) := by
  have key : ∀ (opts : ResolvedOptions) (src : SourceModel) (node : Node) (ps : List Node),
      (collectChain opts (isFinalMemberExpression ps) node ps).length ≤
        opts.ignoreChainWithDepth →
      validateChainDepth opts src node ps = [] := by
    intro opts src node ps h
    have hn : ¬ (collectChain opts (isFinalMemberExpression ps) node ps).length >
        opts.ignoreChainWithDepth := not_lt.2 h
    simp [validateChainDepth, hn]
  exact ⟨key, fun opts src node ps h => key opts src node ps (le_of_eq h)⟩

/-- Witness for claim C7: the chain `a.b().c();` has exactly the default
depth 2 under `perLine` with threshold 2 and is not reported. -/
theorem claim_C7_witness :
    validateChainDepth (pOpts 2) src0 abcMember abcParents = [] :=
  claim_C7_strict_threshold.2 (pOpts 2) src0 abcMember abcParents (by decide)

end NewlinePerChainedCall

namespace NewlinePerChainedCall

/-- Claim C2 counterexample: in `a.b().c();` under `all` with threshold 1
and `includeProperties: true`, the invocation at the statement-final node
fires, the synthesized base link has its object and property on the same
line, yet no violation is produced for it — so it is false that every
same-line link of the chain is individually reported. -/
theorem claim_C2_counterexample :
    ¬ (∀ l ∈ collectChain (allPropsOpts 1) (isFinalMemberExpression abcParents)
          abcMember abcParents,
        hasObjectAndPropertyOnSameLine l = true →
        reportLink src0 l ∈ validateChainDepth (allPropsOpts 1) src0 abcMember abcParents) := by
  decide

/-- Claim C2 (amended): under `all`, an invocation at a statement-final
node takes the reporting branch iff the chain is strictly over depth and
at least one link is same-line; it then reports exactly the genuine
MemberExpression links (synthesized records are filtered out) whose
object and property share a line. -/
theorem claim_C2_amended_all_reports :
    ∀ (opts : ResolvedOptions) (src : SourceModel) (node : Node) (ps : List Node),
      opts.depthCalculationStyle = .all →
      isFinalMemberExpression ps = true →
      validateChainDepth opts src node ps =
        if ((collectChain opts true node ps).length > opts.ignoreChainWithDepth ∧
            (collectChain opts true node ps).any hasObjectAndPropertyOnSameLine = true)
        then (((collectChain opts true node ps).filter linkHasType).filter
                hasObjectAndPropertyOnSameLine).map (reportLink src)
        else [] :=
  all_invocation_final

/-- Witness for claim C2 (amended): `a.b().c();` reports its two genuine
member links and skips the same-line synthesized base link. -/
theorem claim_C2_witness :
    validateChainDepth (allPropsOpts 1) src0 abcMember abcParents =
      [reportLink src0 (Link.member abcMember), reportLink src0 (Link.member abMember)] := by
  rw [claim_C2_amended_all_reports (allPropsOpts 1) src0 abcMember abcParents rfl (by decide)]
  decide

/-- Claim C4: the boolean options use explicit presence checks, but
`ignoreChainWithDepth` is defaulted with the JavaScript `||` operator, so
an explicitly supplied `0` — permitted by the schema's `minimum: 0` — is
replaced by the default 2 instead of taking effect. -/
theorem claim_C4_option_defaulting :
    (resolveOptions { ignoreChainWithDepth := some 0 }).ignoreChainWithDepth = 2 ∧
    ¬ ((resolveOptions { ignoreChainWithDepth := some 0 }).ignoreChainWithDepth = 0) ∧
    (resolveOptions { ignoreChainWithDepth := some 1 }).ignoreChainWithDepth = 1 ∧
    (resolveOptions { includeBrackets := some false }).includeBrackets = false ∧
    (resolveOptions { includeMethodCalls := some false }).includeMethodCalls = false ∧
    (resolveOptions { includeProperties := some true }).includeProperties = true ∧
    (resolveOptions {}).ignoreChainWithDepth = 2 ∧
    (resolveOptions {}).includeBrackets = true ∧
    (resolveOptions {}).includeMethodCalls = true ∧
    (resolveOptions {}).includeProperties = false ∧
    (resolveOptions {}).depthCalculationStyle = .perLine := by
  decide

/-- Claim C5 counterexample: in `a.b()[x]();` under `all` with threshold 0
and `includeBrackets: false`, the computed access whose key is the simple
identifier `x` is neither counted in the chain nor reported, even though
the chain fires (reporting `.b`) — the claimed bracket-key exception does
not exist. -/
theorem claim_C5_counterexample :
    ¬ (Link.member abxMember ∈ collectChain (noBracketsAllOpts 0)
          (isFinalMemberExpression abxParents) abxMember abxParents ∨
       reportLink src0 (Link.member abxMember) ∈
          validateChainDepth (noBracketsAllOpts 0) src0 abxMember abxParents) := by
  decide

/-- Claim C5 (amended): at a countable position a member link is pushed —
counted and reportable — iff `includeBrackets` is true or the access is a
non-computed access whose property is an Identifier; in particular every
non-computed identifier (dot) access is always counted and reportable,
regardless of `includeBrackets`. -/
theorem claim_C5_amended_push_condition :
    (∀ (opts : ResolvedOptions) (aF : Bool) (o p : Node) (c : Bool) (loc : Loc)
        (ps : List Node),
        isCountableLinkPosition opts ps = true →
        collectChain opts aF (.memberExpression o p c loc) ps =
          (if (opts.includeBrackets || (nodeType p == "Identifier" && !c)) = true
           then [Link.member (.memberExpression o p c loc)] else []) ++
            collectChain opts aF o (.memberExpression o p c loc :: ps)) ∧
    (∀ (opts : ResolvedOptions) (aF : Bool) (o p : Node) (loc : Loc) (ps : List Node),
        isCountableLinkPosition opts ps = true → nodeType p = "Identifier" →
        collectChain opts aF (.memberExpression o p false loc) ps =
          Link.member (.memberExpression o p false loc) ::
            collectChain opts aF o (.memberExpression o p false loc :: ps)) := by
  constructor
  · intro opts aF o p c loc ps hcount
    simp [collectChain, hcount]
  · intro opts aF o p loc ps hcount hp
    simp [collectChain, hcount, hp]

/-- Witness for claim C5 (amended): the dot access `a.b` is counted even
under `includeBrackets: false`. -/
theorem claim_C5_witness :
    collectChain (noBracketsAllOpts 0) true
        (.memberExpression aId bId false oneLineLoc) [abCall] =
      [Link.member (.memberExpression aId bId false oneLineLoc)] := by
  rw [claim_C5_amended_push_condition.2 (noBracketsAllOpts 0) true aId bId oneLineLoc [abCall]
    (by decide) rfl]
  decide

end NewlinePerChainedCall

namespace NewlinePerChainedCall

/-- Claim C6 counterexample: in the fully bracketed chain `a[x]()[y]();`
with `includeBrackets: false`, the suppressed bracketed accesses do not
contribute to the extracted chain at all: its length is 0, not the 2 that
"still count toward the depth comparison" would require (with
`includeBrackets: true` the same chain has length 2). -/
theorem claim_C6_counterexample :
    (collectChain (noBracketsAllOpts 1) (isFinalMemberExpression axyParents)
        axyMember axyParents).length = 0 ∧
    ¬ ((collectChain (noBracketsAllOpts 1) (isFinalMemberExpression axyParents)
          axyMember axyParents).length =
        (collectChain (aOpts 1) (isFinalMemberExpression axyParents)
          axyMember axyParents).length) := by
  decide

/-- Claim C6 (amended): with `includeBrackets: false` a suppressed
bracketed access is excluded from the chain entirely — every member link
of any extracted chain satisfies the push condition — so the fully
bracketed chain `a[x]()[y]();` has an empty extracted chain and yields
zero violations (its links contribute nothing to the depth comparison),
while with brackets included the same chain reports both links. -/
theorem claim_C6_amended_bracket_suppression :
    (∀ (opts : ResolvedOptions) (aF : Bool) (n : Node) (ps : List Node)
        (o0 p0 : Node) (c0 : Bool) (loc0 : Loc),
        Link.member (.memberExpression o0 p0 c0 loc0) ∈ collectChain opts aF n ps →
        (opts.includeBrackets || (nodeType p0 == "Identifier" && !c0)) = true) ∧
    collectChain (noBracketsAllOpts 1) (isFinalMemberExpression axyParents)
        axyMember axyParents = [] ∧
    validateChainDepth (noBracketsAllOpts 1) src0 axyMember axyParents = [] ∧
    validateChainDepth (aOpts 1) src0 axyMember axyParents =
      [reportLink src0 (Link.member axyMember), reportLink src0 (Link.member axMember)] := by
  refine ⟨?_, by decide, by decide, by decide⟩
  intro opts aF n
  induction n with
  | identifier s l =>
    intro ps o0 p0 c0 loc0 h
    simp only [collectChain] at h
    split at h
    · cases ps with
      | nil => simp at h
      | cons q qs => simp at h
    · simp at h
  | other s l =>
    intro ps o0 p0 c0 loc0 h
    simp only [collectChain] at h
    split at h
    · cases ps with
      | nil => simp at h
      | cons q qs => simp at h
    · simp at h
  | expressionStatement e l ih =>
    intro ps o0 p0 c0 loc0 h
    simp only [collectChain] at h
    split at h
    · cases ps with
      | nil => simp at h
      | cons q qs => simp at h
    · simp at h
  | variableDeclarator e l ih =>
    intro ps o0 p0 c0 loc0 h
    simp only [collectChain] at h
    split at h
    · cases ps with
      | nil => simp at h
      | cons q qs => simp at h
    · simp at h
  | callExpression callee l ih =>
    intro ps o0 p0 c0 loc0 h
    simp only [collectChain] at h
    exact ih _ o0 p0 c0 loc0 h
  | memberExpression o p c l iho ihp =>
    intro ps o0 p0 c0 loc0 h
    simp only [collectChain] at h
    split at h
    · rcases List.mem_append.1 h with h | h
      · rename_i hpush
        split at h
        · rename_i hcond
          simp only [List.mem_singleton] at h
          injection h with h2
          injection h2 with ho hp1 hc1 hl1
          subst hp1
          subst hc1
          exact hcond
        · simp at h
      · exact iho _ o0 p0 c0 loc0 h
    · split at h
      · exact iho _ o0 p0 c0 loc0 h
      · simp at h

end NewlinePerChainedCall

namespace NewlinePerChainedCall

/-- Witness for claim C6 (amended): the push condition instantiated at the
counted dot link `a.b` of `a.b().c();`. -/
theorem claim_C6_witness :
    ((aOpts 1).includeBrackets || (nodeType bId == "Identifier" && !false)) = true :=
  claim_C6_amended_bracket_suppression.1 (aOpts 1) true abcMember abcParents aId bId false
    oneLineLoc (by decide)

/-- Claim C8: every violation produced by `validateChainDepth` is the
report of some link, and its fix inserts exactly the one-character string
`"\n"` immediately before the first token that follows the link's object
expression and is not a closing-parenthesis token. -/
theorem claim_C8_fix_insertion :
    ∀ (opts : ResolvedOptions) (src : SourceModel) (node : Node) (ps : List Node)
      (v : Violation), v ∈ validateChainDepth opts src node ps →
      ∃ l : Link, v = reportLink src l ∧
        v.fix = (firstNonClosingParenTokenAfter src.tokens (linkObject l)).map
          (fun t => { pos := t.startOfs, text := "\n" }) := by
  intro opts src node ps v hv
  simp only [validateChainDepth] at hv
  split at hv
  · rcases List.mem_map.1 hv with ⟨l, hl, rfl⟩
    exact ⟨l, rfl, by rw [firstNonClosingParen_eq_getTokenAfter]; rfl⟩
  · split at hv
    · rcases List.mem_singleton.1 hv with rfl
      exact ⟨Link.member node, rfl, by rw [firstNonClosingParen_eq_getTokenAfter]; rfl⟩
    · exact absurd hv (List.not_mem_nil v)

/-- Witness for claim C8: in `(u).f().g();` with threshold 0 under
`perLine`, the violation at `.f` carries a fix that skips the closing
parenthesis after `u` and inserts one newline before the `.` token at
offset 3. -/
theorem claim_C8_witness :
    (∃ l : Link, reportLink ufgSrc (Link.member ufMember) = reportLink ufgSrc l ∧
        (reportLink ufgSrc (Link.member ufMember)).fix =
          (firstNonClosingParenTokenAfter ufgSrc.tokens (linkObject l)).map
            (fun t => { pos := t.startOfs, text := "\n" })) ∧
    (reportLink ufgSrc (Link.member ufMember)).fix = some { pos := 3, text := "\n" } :=
  ⟨claim_C8_fix_insertion (pOpts 0) ufgSrc ufMember ufParents
      (reportLink ufgSrc (Link.member ufMember)) (by decide),
    by decide⟩

/-- Claim C9: threshold monotonicity — for a fixed chain and otherwise
identical policy, every violation produced with
`ignoreChainWithDepth = k + 1` is also produced with
`ignoreChainWithDepth = k`. -/
theorem claim_C9_threshold_monotone :
    ∀ (opts : ResolvedOptions) (src : SourceModel) (node : Node) (ps : List Node)
      (k : Nat) (v : Violation),
      v ∈ validateChainDepth { opts with ignoreChainWithDepth := k + 1 } src node ps →
      v ∈ validateChainDepth { opts with ignoreChainWithDepth := k } src node ps := by
  intro opts src node ps k v hv
  simp only [validateChainDepth, collectChain_depth_irrelevant] at hv ⊢
  split at hv
  · rename_i h1
    rcases h1 with ⟨ha, hf, hlen, hany⟩
    rw [if_pos ⟨ha, hf, Nat.lt_of_succ_lt hlen, hany⟩]
    exact hv
  · split at hv
    · rename_i hno h2
      rcases h2 with ⟨hpl, hlen, hsl⟩
      rw [if_neg (fun hc => absurd (hpl.symm.trans hc.1) (by decide)),
        if_pos ⟨hpl, Nat.lt_of_succ_lt hlen, hsl⟩]
      exact hv
    · exact absurd hv (List.not_mem_nil v)

/-- Witness for claim C9: the `perLine` violation of `a.b().c();` present
at threshold 1 persists at threshold 0. -/
theorem claim_C9_witness :
    reportLink src0 (Link.member abcMember) ∈
      validateChainDepth { pOpts 5 with ignoreChainWithDepth := 0 } src0 abcMember abcParents :=
  claim_C9_threshold_monotone (pOpts 5) src0 abcMember abcParents 0
    (reportLink src0 (Link.member abcMember)) (by decide)

/-- Claim C10: a synthesized link (an object/parent pair whose property
position is not a MemberExpression, pushed under `includeProperties`)
contributes to the extracted chain's length used in the depth comparison,
but the `all`-style report loop keeps only genuine MemberExpression links:
in `a.b();` under `all` with threshold 1 and `includeProperties: true` the
chain is [member `.b`, synthesized base] of length 2 and reports only
`.b`, while without the synthesized link (properties off) the length-1
chain reports nothing. -/
theorem claim_C10_synthesized_counted_not_reported :
    (∀ (opts : ResolvedOptions) (src : SourceModel) (node : Node) (ps : List Node)
        (v : Violation),
        opts.depthCalculationStyle = .all →
        v ∈ validateChainDepth opts src node ps →
        ∃ l ∈ collectChain opts (isFinalMemberExpression ps) node ps,
          linkHasType l = true ∧ v = reportLink src l) ∧
    collectChain (allPropsOpts 1) (isFinalMemberExpression abParents) abMember abParents =
      [Link.member abMember, Link.synthesized abMember aId] ∧
    validateChainDepth (allPropsOpts 1) src0 abMember abParents =
      [reportLink src0 (Link.member abMember)] ∧
    (collectChain (aOpts 1) (isFinalMemberExpression abParents) abMember abParents).length = 1 ∧
    validateChainDepth (aOpts 1) src0 abMember abParents = [] := by
  refine ⟨?_, by decide, by decide, by decide, by decide⟩
  intro opts src node ps v ha hv
  simp only [validateChainDepth] at hv
  split at hv
  · rcases List.mem_map.1 hv with ⟨l, hl, rfl⟩
    rcases List.mem_filter.1 hl with ⟨hl2, hsl⟩
    rcases List.mem_filter.1 hl2 with ⟨hl3, hht⟩
    exact ⟨l, hl3, hht, rfl⟩
  · split at hv
    · rename_i h2
      exact absurd (ha.symm.trans h2.1) (by decide)
    · exact absurd hv (List.not_mem_nil v)

/-- Witness for claim C10: the single violation of `a.b();` under `all`
with `includeProperties` stems from a genuine member link of the chain. -/
theorem claim_C10_witness :
    ∃ l ∈ collectChain (allPropsOpts 1) (isFinalMemberExpression abParents) abMember abParents,
      linkHasType l = true ∧
      reportLink src0 (Link.member abMember) = reportLink src0 l :=
  claim_C10_synthesized_counted_not_reported.1 (allPropsOpts 1) src0 abMember abParents
    (reportLink src0 (Link.member abMember)) rfl (by decide)

end NewlinePerChainedCall
